import Mathlib

/-!
Verification of the hyperparameter-search driver in
`examples/movielens_sequence/movielens_sequence.py`: the result store
(`Results`), the fingerprint function (`Results._hash` = MD5 over the
sorted-key JSON serialization), the per-family samplers, and the `run`
search driver.  Python dicts are embedded as association lists that keep
insertion order; Python floats are embedded as rationals; the MD5 digest is
computed bit-faithfully over `Nat` with explicit reduction modulo `2^32`.
-/

namespace Movielens

/-- JSON-representable values, as produced by the hyperparameter samplers and
stored in the result files: Python ints, floats (embedded as rationals),
strings, booleans, and lists (per-layer dilation factors). -/
inductive JsonVal : Type where
  | int (n : Int)
  | num (q : Rat)
  | str (s : String)
  | bool (b : Bool)
  | arr (l : List JsonVal)

/-- A Python dict (hyperparameter set or trial record): an association list
from string keys to JSON values, in insertion order, with no duplicate keys
in any dict built by the program. -/
abbrev Record := List (String × JsonVal)

/-- Code-point lexicographic comparison of character lists: the order Python
uses on `str` (and hence the order of `sort_keys=True`). -/
def lexLe : List Char → List Char → Bool
  | [], _ => true
  | _ :: _, [] => false
  | a :: as, b :: bs =>
    if a = b then lexLe as bs else decide (a.toNat < b.toNat)

/-- Python string `<=` (code-point lexicographic). -/
def strLeb (a b : String) : Bool := lexLe a.data b.data

/-- Key order used by `json.dumps(..., sort_keys=True)` on dict items. -/
def keyLe (p q : String × JsonVal) : Prop := strLeb p.1 q.1 = true

instance : DecidableRel keyLe :=
  fun p q => inferInstanceAs (Decidable (strLeb p.1 q.1 = true))

/-- Decimal digits of a natural number, padded on the left with zeros to
width `w`. -/
def natPad (w n : Nat) : String :=
  let s := toString n
  String.mk (List.replicate (w - s.length) '0') ++ s

/-- Python `repr` of a float whose value is the rational `q`, for the finite
decimal values used in the search spaces (e.g. `0.1`, `0.05`, `0.0`).
Values whose denominator is no power of ten ≤ 10^17 fall back to a
fraction rendering; tiny magnitudes that CPython would print in scientific
notation (e.g. `1e-06`) are rendered in plain decimal here — no theorem in
this file ever serializes such a value. -/
def floatRepr (q : Rat) : String :=
  let sign := if q.num < 0 then "-" else ""
  let a := q.num.natAbs
  if q.den = 1 then sign ++ toString a ++ ".0"
  else
    match (List.range 18).find? (fun k => 10 ^ k % q.den = 0) with
    | some k =>
      let m := a * (10 ^ k) / q.den
      sign ++ toString (m / 10 ^ k) ++ "." ++ natPad k (m % 10 ^ k)
    | none => sign ++ toString a ++ "/" ++ toString q.den

mutual
/-- `json.dumps` rendering of a single value (default separators; the
strings appearing in this program need no escaping). -/
def renderJson : JsonVal → String
  | .int n => toString n
  | .num q => floatRepr q
  | .str s => "\"" ++ s ++ "\""
  | .bool b => if b then "true" else "false"
  | .arr l => "[" ++ renderJsonList l ++ "]"

/-- `json.dumps` rendering of the elements of a list, separated by `", "`. -/
def renderJsonList : List JsonVal → String
  | [] => ""
  | [x] => renderJson x
  | x :: y :: xs => renderJson x ++ ", " ++ renderJsonList (y :: xs)
end

/-- `json.dumps` rendering of a dict with the items in the given order
(Python's default separators `", "` and `": "`). -/
def renderObj (pairs : Record) : String :=
  "\x7b" ++ String.intercalate ", "
      (pairs.map (fun p => "\"" ++ p.1 ++ "\": " ++ renderJson p.2)) ++ "\x7d"

/-- `json.dumps(x, sort_keys=True)`: serialize with keys sorted
lexicographically. -/
def pyJsonDumpsSorted (x : Record) : String :=
  renderObj (List.insertionSort keyLe x)

/-! ### MD5 (RFC 1321), computed over `Nat` modulo `2^32` -/

/-- `2^32`. -/
def w32 : Nat := 4294967296

/-- Left-rotation of a 32-bit word. -/
def rotl32 (x n : Nat) : Nat := ((x <<< n) % w32) ||| (x >>> (32 - n))

/-- The 64 MD5 sine-derived constants `K[i]`. -/
def mdK : List Nat :=
  [0xd76aa478, 0xe8c7b756, 0x242070db, 0xc1bdceee,
   0xf57c0faf, 0x4787c62a, 0xa8304613, 0xfd469501,
   0x698098d8, 0x8b44f7af, 0xffff5bb1, 0x895cd7be,
   0x6b901122, 0xfd987193, 0xa679438e, 0x49b40821,
   0xf61e2562, 0xc040b340, 0x265e5a51, 0xe9b6c7aa,
   0xd62f105d, 0x02441453, 0xd8a1e681, 0xe7d3fbc8,
   0x21e1cde6, 0xc33707d6, 0xf4d50d87, 0x455a14ed,
   0xa9e3e905, 0xfcefa3f8, 0x676f02d9, 0x8d2a4c8a,
   0xfffa3942, 0x8771f681, 0x6d9d6122, 0xfde5380c,
   0xa4beea44, 0x4bdecfa9, 0xf6bb4b60, 0xbebfbc70,
   0x289b7ec6, 0xeaa127fa, 0xd4ef3085, 0x04881d05,
   0xd9d4d039, 0xe6db99e5, 0x1fa27cf8, 0xc4ac5665,
   0xf4292244, 0x432aff97, 0xab9423a7, 0xfc93a039,
   0x655b59c3, 0x8f0ccc92, 0xffeff47d, 0x85845dd1,
   0x6fa87e4f, 0xfe2ce6e0, 0xa3014314, 0x4e0811a1,
   0xf7537e82, 0xbd3af235, 0x2ad7d2bb, 0xeb86d391]

/-- The per-round left-rotation amounts `s[i]`. -/
def mdS : List Nat :=
  [7, 12, 17, 22, 7, 12, 17, 22, 7, 12, 17, 22, 7, 12, 17, 22,
   5, 9, 14, 20, 5, 9, 14, 20, 5, 9, 14, 20, 5, 9, 14, 20,
   4, 11, 16, 23, 4, 11, 16, 23, 4, 11, 16, 23, 4, 11, 16, 23,
   6, 10, 15, 21, 6, 10, 15, 21, 6, 10, 15, 21, 6, 10, 15, 21]

/-- 32-bit complement. -/
def not32 (x : Nat) : Nat := (w32 - 1) ^^^ x

/-- The MD5 round mixing function for round `i`. -/
def md5F (i b c d : Nat) : Nat :=
  if i < 16 then (b &&& c) ||| (not32 b &&& d)
  else if i < 32 then (d &&& b) ||| (not32 d &&& c)
  else if i < 48 then b ^^^ c ^^^ d
  else c ^^^ (b ||| not32 d)

/-- The MD5 message-word index for round `i`. -/
def md5G (i : Nat) : Nat :=
  if i < 16 then i
  else if i < 32 then (5 * i + 1) % 16
  else if i < 48 then (3 * i + 5) % 16
  else (7 * i) % 16

/-- Little-endian byte decomposition, `k` bytes. -/
def toBytesLE : Nat → Nat → List Nat
  | 0, _ => []
  | k + 1, x => (x % 256) :: toBytesLE k (x / 256)

/-- The 32-bit message word at index `g` of a 64-byte chunk (little-endian). -/
def wordAt (chunk : List Nat) (g : Nat) : Nat :=
  chunk.getD (4 * g) 0 + 256 * chunk.getD (4 * g + 1) 0 +
    65536 * chunk.getD (4 * g + 2) 0 + 16777216 * chunk.getD (4 * g + 3) 0

/-- One MD5 operation (round `i`) on the running state `(a, b, c, d)`. -/
def md5Round (chunk : List Nat) (st : Nat × Nat × Nat × Nat) (i : Nat) :
    Nat × Nat × Nat × Nat :=
  let (a, b, c, d) := st
  let f := (md5F i b c d + a + mdK.getD i 0 + wordAt chunk (md5G i)) % w32
  (d, (b + rotl32 f (mdS.getD i 0)) % w32, b, c)

/-- Process one 64-byte chunk: 64 rounds, then add into the state. -/
def md5Chunk (st : Nat × Nat × Nat × Nat) (chunk : List Nat) :
    Nat × Nat × Nat × Nat :=
  let (a0, b0, c0, d0) := st
  let (a, b, c, d) := (List.range 64).foldl (md5Round chunk) st
  ((a0 + a) % w32, (b0 + b) % w32, (c0 + c) % w32, (d0 + d) % w32)

/-- MD5 padding: `0x80`, zeros to 56 mod 64, then the bit length as eight
little-endian bytes. -/
def md5Pad (msg : List Nat) : List Nat :=
  let z := (120 - (msg.length + 1) % 64) % 64
  msg ++ [128] ++ List.replicate z 0 ++ toBytesLE 8 (8 * msg.length)

/-- Fold the MD5 compression over the first `k` consecutive 64-byte chunks
(the padded message has exactly `length / 64` of them). -/
def md5Process : Nat → List Nat → Nat × Nat × Nat × Nat → Nat × Nat × Nat × Nat
  | 0, _, st => st
  | k + 1, bytes, st => md5Process k (bytes.drop 64) (md5Chunk st (bytes.take 64))

/-- The 16 digest bytes of the MD5 of a byte sequence. -/
def md5Bytes (msg : List Nat) : List Nat :=
  let padded := md5Pad msg
  let (a, b, c, d) :=
    md5Process (padded.length / 64) padded (0x67452301, 0xefcdab89, 0x98badcfe, 0x10325476)
  toBytesLE 4 a ++ toBytesLE 4 b ++ toBytesLE 4 c ++ toBytesLE 4 d

/-- Lowercase hexadecimal digit. -/
def hexDigit (n : Nat) : Char :=
  if n < 10 then Char.ofNat (48 + n) else Char.ofNat (87 + n)

/-- Lowercase hexadecimal rendering of a byte list, two digits per byte. -/
def bytesToHex (bs : List Nat) : List Char :=
  bs.foldr (fun b acc => hexDigit (b / 16 % 16) :: hexDigit (b % 16) :: acc) []

/-- `hashlib.md5(...).hexdigest()`: the 32-character lowercase hex digest. -/
def md5Hex (msg : List Nat) : String := String.mk (bytesToHex (md5Bytes msg))

/-- UTF-8 bytes of a string.  `json.dumps` output is pure ASCII
(`ensure_ascii=True` is the default), where UTF-8 coincides with the code
points. -/
def strBytes (s : String) : List Nat := s.data.map Char.toNat

/-! ### The `Results` store

The backing file is embedded as the list of its records in file order;
each line's `json.dumps`/`json.loads` round trip is the identity on the
embedded record, so `save` appends the record itself.  A `none` returned by
`getitem` stands for the `KeyError` raised by `__getitem__` — both the
`raise KeyError` after an exhausted scan and a `datum['hash']` lookup on a
record that has no `hash` field abort the scan with a `KeyError`, and
`__contains__` catches either one. -/

namespace Results

/-- `Results._hash`: the MD5 hex digest of the sorted-key JSON serialization
of a hyperparameter set. -/
def hash (x : Record) : String := md5Hex (strBytes (pyJsonDumpsSorted x))

/-- Python `dict.update`: existing keys keep their position and take the
new value; keys not yet present are appended in the updating dict's order. -/
def dictUpdate (base upd : Record) : Record :=
  (base.map (fun p =>
      match List.lookup p.1 upd with
      | some v => (p.1, v)
      | none => p)) ++
    upd.filter (fun p => (List.lookup p.1 base).isNone)

/-- The record line written by `Results.save`: the dict
`{'test_mrr': ..., 'validation_mrr': ..., 'hash': ...}` updated with the
hyperparameters. -/
def savedRecord (hyperparams : Record) (test_mrr validation_mrr : Rat) : Record :=
  dictUpdate
    [("test_mrr", JsonVal.num test_mrr),
     ("validation_mrr", JsonVal.num validation_mrr),
     ("hash", JsonVal.str (hash hyperparams))]
    hyperparams

/-- `Results.save`: append one self-contained record line to the store. -/
def save (hyperparams : Record) (test_mrr validation_mrr : Rat)
    (store : List Record) : List Record :=
  store ++ [savedRecord hyperparams test_mrr validation_mrr]

/-- `del datum['hash']`: remove the (first) `hash` entry. -/
def eraseHash (datum : Record) : Record :=
  datum.eraseP (fun p => p.1 == "hash")

/-- The front-to-back scan of `__getitem__`: return the first record whose
`hash` field equals the digest `d`, with the `hash` field stripped; a record
without a `hash` field raises `KeyError` (= `none`), aborting the scan. -/
def scanHash (d : String) : List Record → Option Record
  | [] => none
  | datum :: rest =>
    match List.lookup "hash" datum with
    | none => none
    | some (JsonVal.str s) => if s = d then some (eraseHash datum) else scanHash d rest
    | some _ => scanHash d rest

/-- `Results.__getitem__`: compute the fingerprint and scan the store. -/
def getitem (hyperparams : Record) (store : List Record) : Option Record :=
  scanHash (hash hyperparams) store

/-- `Results.__contains__`: `True` iff `__getitem__` does not raise. -/
def contains (hyperparams : Record) (store : List Record) : Bool :=
  (getitem hyperparams store).isSome

/-- The `test_mrr` field of a record, as a rational; records written by
`save` with numeric scores always carry one. -/
def testMrr (r : Record) : Rat :=
  match List.lookup "test_mrr" r with
  | some (JsonVal.num q) => q
  | _ => 0

/-- The sort order of `Results.best`: ascending in the key
`-x['test_mrr']`, i.e. descending `test_mrr` (Python's `sorted` is stable,
so ties keep file order). -/
def bestOrd (x y : Record) : Prop := testMrr y ≤ testMrr x

instance : DecidableRel bestOrd :=
  fun x y => inferInstanceAs (Decidable (testMrr y ≤ testMrr x))

/-- `Results.best`: iterate over all records (stripping `hash`), sort by
descending `test_mrr`, and return the first, or `None` on an empty store. -/
def best (store : List Record) : Option Record :=
  (List.insertionSort bestOrd (store.map eraseHash)).head?

/-- One step of the spec's `best()` description: keep the running best,
replacing it only on a strictly larger `test_mrr` (so ties keep the earlier
record). -/
def bestStep (acc : Option Record) (x : Record) : Option Record :=
  match acc with
  | none => some x
  | some a => if testMrr a < testMrr x then some x else some a

/-- The spec's description of `best()`, stated independently of the code's
sort: "the record with the maximum test_score, ties broken by first
occurrence in file order; an explicit no-result value if the store is
empty". -/
def specBest (recs : List Record) : Option Record :=
  recs.foldl bestStep none

end Results

/-! ### The samplers

`sklearn.model_selection.ParameterSampler` and `numpy.random.RandomState`
are external collaborators, not part of this repository.  Modelled from the
spec: the sampler "produces a bounded, reproducible sequence of
hyperparameter sets", drawing each parameter uniformly with replacement
from its candidate list, deterministically in the seed; the random state is
embedded as a seed together with a deterministic mixing function, and
`ParameterSampler` iterates the parameters of a draw in sorted key order
(as sklearn does). -/

/-- A search space: parameter name to candidate values, in declaration
order. -/
abbrev Space := List (String × List JsonVal)

/-- A 64-bit mixing step (a linear congruential step; the statistical
quality of the stream is a non-goal). -/
def mix (s : Nat) : Nat :=
  (6364136223846793005 * s + 1442695040888963407) % 18446744073709551616

/-- Modelled from the spec: the pseudo-random value the random state
delivers for draw `j`, parameter index `p`. -/
def rnd (seed j p : Nat) : Nat := mix (mix (mix seed + j + 1) + p + 1)

/-- Key order on space entries (sklearn sorts the parameter items). -/
def spaceKeyLe (p q : String × List JsonVal) : Prop := strLeb p.1 q.1 = true

instance : DecidableRel spaceKeyLe :=
  fun p q => inferInstanceAs (Decidable (strLeb p.1 q.1 = true))

/-- Modelled from the spec: `ParameterSampler(space, n_iter, random_state)`
as a list of `n_iter` dicts; each draw picks, for every parameter of the
sorted space, one candidate indexed by the random stream. -/
def parameterSampler (space : Space) (n_iter : Nat) (random_state : Nat) :
    List Record :=
  let sorted := List.insertionSort spaceKeyLe space
  (List.range n_iter).map (fun j =>
    (sorted.enum.map (fun pk =>
      (pk.2.1, pk.2.2.getD (rnd random_state j pk.1 % pk.2.2.length) (JsonVal.int 0)))))

/-- `N_ITER = list(range(5, 20))`. -/
def nIterList : List JsonVal :=
  (List.range 15).map (fun k : Nat => JsonVal.int (5 + (k : Int)))

/-- `BATCH_SIZE = [8, 16, 32, 256][-1:]`. -/
def batchSizeList : List JsonVal := [JsonVal.int 256]

/-- `EMBEDDING_DIM = [8, 16, 32, 64, 128, 256][:1]`. -/
def embeddingDimList : List JsonVal := [JsonVal.int 8]

/-- `L2 = [1e-6, 1e-5, 1e-4, 1e-3, 1e-2, 0.0]`. -/
def l2List : List JsonVal :=
  [JsonVal.num (1/1000000), JsonVal.num (1/100000), JsonVal.num (1/10000),
   JsonVal.num (1/1000), JsonVal.num (1/100), JsonVal.num 0]

/-- `LEARNING_RATES = [1e-3, 1e-2, 5 * 1e-2, 1e-1]`. -/
def learningRatesList : List JsonVal :=
  [JsonVal.num (1/1000), JsonVal.num (1/100), JsonVal.num (1/20), JsonVal.num (1/10)]

/-- `LOSSES = ['bpr', 'hinge', 'adaptive_hinge', 'pointwise']`. -/
def lossesList : List JsonVal :=
  [JsonVal.str "bpr", JsonVal.str "hinge", JsonVal.str "adaptive_hinge",
   JsonVal.str "pointwise"]

/-- The six space entries shared by all three model families. -/
def commonSpace : Space :=
  [("n_iter", nIterList),
   ("batch_size", batchSizeList),
   ("l2", l2List),
   ("learning_rate", learningRatesList),
   ("loss", lossesList),
   ("embedding_dim", embeddingDimList)]

/-- The CNN search space of `sample_cnn_hyperparameters`. -/
def cnnSpace : Space :=
  commonSpace ++
  [("kernel_width", [JsonVal.int 3, JsonVal.int 5, JsonVal.int 7]),
   ("num_layers", (List.range 9).map (fun k : Nat => JsonVal.int (1 + (k : Int)))),
   ("dilation_multiplier", [JsonVal.int 1, JsonVal.int 2]),
   ("nonlinearity", [JsonVal.str "tanh", JsonVal.str "relu"]),
   ("residual", [JsonVal.bool true, JsonVal.bool false])]

/-- The derived per-layer dilation sequence:
`list(dilation_multiplier ** (i % 8) for i in range(num_layers))`. -/
def cnnDilation (dm : Int) (numLayers : Nat) : List JsonVal :=
  (List.range numLayers).map (fun i => JsonVal.int (dm ^ (i % 8)))

/-- Extract `params['num_layers']` as a natural number. -/
def numLayersOf (params : Record) : Nat :=
  match List.lookup "num_layers" params with
  | some (JsonVal.int n) => n.toNat
  | _ => 0

/-- Extract `params['dilation_multiplier']` as an integer. -/
def dilationMultiplierOf (params : Record) : Int :=
  match List.lookup "dilation_multiplier" params with
  | some (JsonVal.int n) => n
  | _ => 0

/-- `sample_cnn_hyperparameters`: draw from the CNN space, then attach the
derived `dilation` key. -/
def sample_cnn_hyperparameters (random_state num : Nat) : List Record :=
  (parameterSampler cnnSpace num random_state).map (fun params =>
    params ++
      [("dilation", JsonVal.arr (cnnDilation (dilationMultiplierOf params) (numLayersOf params)))])

/-- `sample_lstm_hyperparameters`: draw from the common space. -/
def sample_lstm_hyperparameters (random_state num : Nat) : List Record :=
  parameterSampler commonSpace num random_state

/-- `sample_pooling_hyperparameters`: draw from the common space. -/
def sample_pooling_hyperparameters (random_state num : Nat) : List Record :=
  parameterSampler commonSpace num random_state

/-! ### The search driver `run` -/

/-- The Python exceptions the driver can raise in the embedded fragment. -/
inductive PyErr : Type where
  | typeError
  | valueError
  | nameError

/-- Modelled from the spec (`os.path` is standard-library code outside this
repository): `os.path.join` raises `TypeError` when its first argument is
`None`, and otherwise joins with separators. -/
def osPathJoin : Option String → String → String → Except PyErr String
  | none, _, _ => Except.error PyErr.typeError
  | some a, b, c => Except.ok (a ++ "/" ++ b ++ "/" ++ c)

/-- `"run_%3d" % cnt`: decimal, right-aligned to width 3 with spaces. -/
def runDirName (cnt : Nat) : String :=
  "run_" ++ (if cnt < 10 then "  " else if cnt < 100 then " " else "") ++ toString cnt

/-- `NUM_SAMPLES = 100`. -/
def NUM_SAMPLES : Nat := 100

/-- What one invocation of `run` did: the final store (or the exception that
aborted it), the hyperparameter sets drawn from the lazy sampler before
termination, and the sets actually evaluated. -/
structure RunOutcome where
  result : Except PyErr (List Record)
  sampled : List Record
  evaluated : List Record

/-- The per-candidate loop of `run`: skip a candidate already in the store;
otherwise build the telemetry directory, evaluate, and `save`. -/
def runLoop (tb_log_dir : Option String) (model_type : String)
    (eval_fnc : Record → String → Rat × Rat) :
    List Record → Nat → List Record → RunOutcome
  | store, _, [] => ⟨Except.ok store, [], []⟩
  | store, cnt, h :: rest =>
    if Results.contains h store then
      let o := runLoop tb_log_dir model_type eval_fnc store (cnt + 1) rest
      ⟨o.result, h :: o.sampled, o.evaluated⟩
    else
      match osPathJoin tb_log_dir model_type (runDirName cnt) with
      | Except.error e => ⟨Except.error e, [h], []⟩
      | Except.ok dir =>
        let tv := eval_fnc h dir
        let o := runLoop tb_log_dir model_type eval_fnc
          (Results.save h tv.1 tv.2 store) (cnt + 1) rest
        ⟨o.result, h :: o.sampled, h :: o.evaluated⟩

/-- The `run` driver.  Its declared random-state parameter is spelled
`ranomd_state`; the body instead reads the name `random_state`, which is
not bound in the function, so it resolves to the module global when one
exists (`globalRandomState`) and raises `NameError` otherwise — after the
model-type dispatch, which can raise `ValueError` first.  The evaluator is
the external training boundary, abstracted as a function from the resolved
random state, the hyperparameters, and the telemetry directory to the two
mean MRR scores.  The store is the content of `{model_type}_results.txt`. -/
def run (globalRandomState : Option Nat) (ranomd_state : Nat)
    (model_type : String) (tb_log_dir : Option String)
    (eval_fnc : Nat → Record → String → Rat × Rat)
    (store : List Record) : RunOutcome :=
  let _best_result := Results.best store
  if model_type = "pooling" ∨ model_type = "cnn" ∨ model_type = "lstm" then
    match globalRandomState with
    | none => ⟨Except.error PyErr.nameError, [], []⟩
    | some random_state =>
      let sample_fnc :=
        if model_type = "pooling" then sample_pooling_hyperparameters
        else if model_type = "cnn" then sample_cnn_hyperparameters
        else sample_lstm_hyperparameters
      runLoop tb_log_dir model_type (eval_fnc random_state) store 0
        (sample_fnc random_state NUM_SAMPLES)
  else ⟨Except.error PyErr.valueError, [], []⟩

/-! ### Order properties of the serialization key order -/

theorem char_toNat_inj {a b : Char} (h : a.toNat = b.toNat) : a = b := by
  apply Char.eq_of_val_eq
  apply UInt32.eq_of_val_eq
  exact Fin.eq_of_val_eq h

theorem lexLe_total : ∀ a b : List Char, lexLe a b = true ∨ lexLe b a = true := by
  intro a
  induction a with
  | nil => intro b; exact Or.inl rfl
  | cons x xs ih =>
    intro b
    cases b with
    | nil => exact Or.inr rfl
    | cons y ys =>
      by_cases hxy : x = y
      · subst hxy
        simpa [lexLe] using ih ys
      · rcases Nat.lt_trichotomy x.toNat y.toNat with h | h | h
        · exact Or.inl (by simp [lexLe, hxy, h])
        · exact absurd (char_toNat_inj h) hxy
        · exact Or.inr (by simp [lexLe, Ne.symm hxy, h, Nat.not_lt.mpr (Nat.le_of_lt h)])

theorem lexLe_antisymm :
    ∀ a b : List Char, lexLe a b = true → lexLe b a = true → a = b := by
  intro a
  induction a with
  | nil =>
    intro b _ hba
    cases b with
    | nil => rfl
    | cons y ys => simp [lexLe] at hba
  | cons x xs ih =>
    intro b hab hba
    cases b with
    | nil => simp [lexLe] at hab
    | cons y ys =>
      by_cases hxy : x = y
      · subst hxy
        simp only [lexLe, if_pos rfl] at hab hba
        exact congrArg (x :: ·) (ih ys hab hba)
      · simp only [lexLe, if_neg hxy, if_neg (Ne.symm hxy), decide_eq_true_eq] at hab hba
        omega

theorem lexLe_trans :
    ∀ a b c : List Char, lexLe a b = true → lexLe b c = true → lexLe a c = true := by
  intro a
  induction a with
  | nil => intro b c _ _; rfl
  | cons x xs ih =>
    intro b c hab hbc
    cases b with
    | nil => simp [lexLe] at hab
    | cons y ys =>
      cases c with
      | nil => simp [lexLe] at hbc
      | cons z zs =>
        by_cases hxy : x = y <;> by_cases hyz : y = z
        · subst hxy; subst hyz
          simp only [lexLe, if_pos rfl] at hab hbc ⊢
          exact ih ys zs hab hbc
        · subst hxy
          simpa [lexLe, hyz] using hbc
        · subst hyz
          simpa [lexLe, hxy] using hab
        · simp only [lexLe, if_neg hxy, if_neg hyz, decide_eq_true_eq] at hab hbc
          by_cases hxz : x = z
          · subst hxz; omega
          · simp only [lexLe, if_neg hxz, decide_eq_true_eq]
            omega

theorem strLeb_total (a b : String) : strLeb a b = true ∨ strLeb b a = true :=
  lexLe_total a.data b.data

theorem strLeb_antisymm {a b : String} (hab : strLeb a b = true)
    (hba : strLeb b a = true) : a = b := by
  cases a with
  | mk da =>
    cases b with
    | mk db => exact congrArg String.mk (lexLe_antisymm da db hab hba)

theorem strLeb_trans {a b c : String} (hab : strLeb a b = true)
    (hbc : strLeb b c = true) : strLeb a c = true :=
  lexLe_trans a.data b.data c.data hab hbc

instance : IsTotal (String × JsonVal) keyLe := ⟨fun p q => strLeb_total p.1 q.1⟩

instance : IsTrans (String × JsonVal) keyLe := ⟨fun _ _ _ h h' => strLeb_trans h h'⟩

/-- Two sorted association lists that are permutations of each other and
have no duplicate keys are equal. -/
theorem sorted_perm_nodupkeys_eq :
    ∀ {s₁ s₂ : Record}, s₁.Perm s₂ → s₁.Sorted keyLe → s₂.Sorted keyLe →
      (s₁.map Prod.fst).Nodup → s₁ = s₂ := by
  intro s₁
  induction s₁ with
  | nil =>
    intro s₂ hp _ _ _
    exact (List.Perm.nil_eq hp).symm ▸ rfl
  | cons a t₁ ih =>
    intro s₂ hp hs₁ hs₂ hnd
    cases s₂ with
    | nil => exact absurd hp.symm (by simp)
    | cons b t₂ =>
      have hnd' : (a.1 :: t₁.map Prod.fst).Nodup := by
        rw [List.map_cons] at hnd; exact hnd
      have hab : a = b := by
        have ha2 : a ∈ b :: t₂ := hp.mem_iff.mp (List.mem_cons_self a t₁)
        have hb1 : b ∈ a :: t₁ := hp.symm.mem_iff.mp (List.mem_cons_self b t₂)
        rcases List.mem_cons.mp ha2 with h | ha2'
        · exact h
        rcases List.mem_cons.mp hb1 with h | hb1'
        · exact h.symm
        -- a occurs in t₂ and b in t₁: both sorted heads bound each other
        have hba : keyLe b a := (List.sorted_cons.mp hs₂).1 a ha2'
        have hab' : keyLe a b := (List.sorted_cons.mp hs₁).1 b hb1'
        have hkey : a.1 = b.1 := strLeb_antisymm hab' hba
        -- but then s₁'s keys repeat: b ∈ t₁ has a's key
        have : a.1 ∈ t₁.map Prod.fst := by
          rw [hkey]
          exact List.mem_map_of_mem Prod.fst hb1'
        exact absurd ‹a.1 ∈ t₁.map Prod.fst› (List.nodup_cons.mp hnd').1
      subst hab
      have htail : t₁ = t₂ :=
        ih hp.cons_inv (List.sorted_cons.mp hs₁).2 (List.sorted_cons.mp hs₂).2
          (List.nodup_cons.mp hnd').2
      rw [htail]

/-- The fingerprint depends only on the content of the mapping: reordering
the entries of a duplicate-free mapping does not change the digest. -/
theorem hash_perm {m₁ m₂ : Record} (hp : m₁.Perm m₂)
    (hnd : (m₁.map Prod.fst).Nodup) : Results.hash m₁ = Results.hash m₂ := by
  have hs : List.insertionSort keyLe m₁ = List.insertionSort keyLe m₂ := by
    apply sorted_perm_nodupkeys_eq
    · exact (List.perm_insertionSort keyLe m₁).trans
        (hp.trans (List.perm_insertionSort keyLe m₂).symm)
    · exact List.sorted_insertionSort keyLe m₁
    · exact List.sorted_insertionSort keyLe m₂
    · exact ((List.perm_insertionSort keyLe m₁).symm.map Prod.fst).nodup hnd
  unfold Results.hash pyJsonDumpsSorted
  rw [hs]

theorem length_toBytesLE : ∀ (k x : Nat), (toBytesLE k x).length = k := by
  intro k
  induction k with
  | zero => intro x; rfl
  | succ n ih => intro x; simp [toBytesLE, ih]

theorem length_bytesToHex : ∀ bs : List Nat, (bytesToHex bs).length = 2 * bs.length := by
  intro bs
  induction bs with
  | nil => rfl
  | cons b t ih => simp [bytesToHex] at ih ⊢; omega

theorem length_md5Bytes (msg : List Nat) : (md5Bytes msg).length = 16 := by
  unfold md5Bytes
  rcases md5Process ((md5Pad msg).length / 64) (md5Pad msg)
    (0x67452301, 0xefcdab89, 0x98badcfe, 0x10325476) with ⟨a, b, c, d⟩
  simp [length_toBytesLE]

theorem length_md5Hex (msg : List Nat) : (md5Hex msg).length = 32 := by
  show (bytesToHex (md5Bytes msg)).length = 32
  rw [length_bytesToHex, length_md5Bytes]

theorem mem_bytesToHex {bs : List Nat} {c : Char} (hc : c ∈ bytesToHex bs) :
    ∃ n, n < 16 ∧ c = hexDigit n := by
  induction bs with
  | nil => exact absurd hc (by simp [bytesToHex])
  | cons b t ih =>
    have hc' : c = hexDigit (b / 16 % 16) ∨ c = hexDigit (b % 16) ∨ c ∈ bytesToHex t := by
      simpa [bytesToHex] using hc
    rcases hc' with h | h | h
    · exact ⟨b / 16 % 16, Nat.mod_lt _ (by omega), h⟩
    · exact ⟨b % 16, Nat.mod_lt _ (by omega), h⟩
    · exact ih h

theorem hexDigit_is_hex : ∀ n, n < 16 →
    ((hexDigit n).isDigit ∨ hexDigit n ∈ ['a', 'b', 'c', 'd', 'e', 'f']) := by
  decide

/-- **C2**: the fingerprint function is pure and order-independent: any two
hyperparameter mappings equal as mappings (a permutation of the same
duplicate-free key-value pairs) receive the identical digest, the digest is
always a 32-character lowercase-hexadecimal string, the spec's equality
example `fingerprint({"a":1,"b":2}) = fingerprint({"b":2,"a":1})` holds,
and `fingerprint({"a":1}) ≠ fingerprint({"a":2})`. -/
theorem C2_fingerprint_deterministic :
    (∀ m₁ m₂ : Record, m₁.Perm m₂ → (m₁.map Prod.fst).Nodup →
        Results.hash m₁ = Results.hash m₂) ∧
    (∀ m : Record, (Results.hash m).length = 32 ∧
        ∀ c ∈ (Results.hash m).data, c.isDigit ∨ c ∈ ['a', 'b', 'c', 'd', 'e', 'f']) ∧
    Results.hash [("a", JsonVal.int 1), ("b", JsonVal.int 2)] =
      Results.hash [("b", JsonVal.int 2), ("a", JsonVal.int 1)] ∧
    Results.hash [("a", JsonVal.int 1)] ≠ Results.hash [("a", JsonVal.int 2)] := by
  refine ⟨fun m₁ m₂ hp hnd => hash_perm hp hnd, fun m => ⟨length_md5Hex _, ?_⟩, rfl, by decide⟩
  intro c hc
  obtain ⟨n, hn, rfl⟩ := mem_bytesToHex hc
  exact hexDigit_is_hex n hn

/-- **C2 witness**: the order-independence part applied to the spec's
concrete example `{"a": 1, "b": 2}` versus `{"b": 2, "a": 1}`. -/
theorem C2_fingerprint_deterministic_witness :
    Results.hash [("a", JsonVal.int 1), ("b", JsonVal.int 2)] =
      Results.hash [("b", JsonVal.int 2), ("a", JsonVal.int 1)] :=
  C2_fingerprint_deterministic.1
    [("a", JsonVal.int 1), ("b", JsonVal.int 2)]
    [("b", JsonVal.int 2), ("a", JsonVal.int 1)]
    (List.Perm.swap ("b", JsonVal.int 2) ("a", JsonVal.int 1) [])
    (by decide)

/-! ### The shape of saved records -/

theorem lookup_savedRecord_test_mrr (h : Record) (t v : Rat) :
    List.lookup "test_mrr" (Results.savedRecord h t v) =
      some ((List.lookup "test_mrr" h).getD (JsonVal.num t)) := by
  simp only [Results.savedRecord, Results.dictUpdate, List.map_cons, List.map_nil]
  cases List.lookup "test_mrr" h <;> simp [List.lookup]

theorem lookup_savedRecord_validation_mrr (h : Record) (t v : Rat) :
    List.lookup "validation_mrr" (Results.savedRecord h t v) =
      some ((List.lookup "validation_mrr" h).getD (JsonVal.num v)) := by
  simp only [Results.savedRecord, Results.dictUpdate, List.map_cons, List.map_nil]
  cases List.lookup "validation_mrr" h <;>
    cases List.lookup "test_mrr" h <;> simp [List.lookup]

theorem lookup_savedRecord_hash (h : Record) (t v : Rat) :
    List.lookup "hash" (Results.savedRecord h t v) =
      some ((List.lookup "hash" h).getD (JsonVal.str (Results.hash h))) := by
  simp only [Results.savedRecord, Results.dictUpdate, List.map_cons, List.map_nil]
  cases List.lookup "hash" h <;> cases List.lookup "validation_mrr" h <;>
    cases List.lookup "test_mrr" h <;> simp [List.lookup]

theorem lookup_none_forall {k : String} :
    ∀ {l : Record}, List.lookup k l = none → ∀ p ∈ l, p.1 ≠ k := by
  intro l
  induction l with
  | nil => intro _ p hp; exact absurd hp (by simp)
  | cons a t ih =>
    intro hl p hp
    have hka : (k == a.1) = false := by
      by_contra hne
      have : k == a.1 := by simpa using hne
      rcases a with ⟨a1, a2⟩
      simp [List.lookup, this] at hl
    rcases List.mem_cons.mp hp with rfl | hp'
    · intro hk
      rw [hk] at hka
      simp at hka
    · apply ih ?_ p hp'
      rcases a with ⟨a1, a2⟩
      simpa [List.lookup, hka] using hl

/-- With no reserved key in the hyperparameters, the saved record is
literally the two scores, the fingerprint, and then the hyperparameters. -/
theorem savedRecord_of_disjoint (h : Record) (t v : Rat)
    (h1 : List.lookup "test_mrr" h = none)
    (h2 : List.lookup "validation_mrr" h = none)
    (h3 : List.lookup "hash" h = none) :
    Results.savedRecord h t v =
      [("test_mrr", JsonVal.num t), ("validation_mrr", JsonVal.num v),
       ("hash", JsonVal.str (Results.hash h))] ++ h := by
  unfold Results.savedRecord Results.dictUpdate
  rw [List.map_cons, List.map_cons, List.map_cons, List.map_nil]
  simp only [h1, h2, h3]
  have hfilter : h.filter (fun p =>
      (List.lookup p.1 [("test_mrr", JsonVal.num t), ("validation_mrr", JsonVal.num v),
        ("hash", JsonVal.str (Results.hash h))]).isNone) = h := by
    rw [List.filter_eq_self]
    intro p hp
    have e1 : (p.1 == "test_mrr") = false := by
      simpa using lookup_none_forall h1 p hp
    have e2 : (p.1 == "validation_mrr") = false := by
      simpa using lookup_none_forall h2 p hp
    have e3 : (p.1 == "hash") = false := by
      simpa using lookup_none_forall h3 p hp
    simp [List.lookup, e1, e2, e3]
  rw [hfilter]

/-- **C10**: `save` writes the scores-and-hash dict updated with the
hyperparameters: when the hyperparameter keys avoid the reserved keys
`test_mrr`, `validation_mrr`, `hash`, the record carries the two scores and
the fingerprint; a hyperparameter bound to a reserved key silently
overwrites that field of the written record.  The store append itself is
exactly this record. -/
theorem C10_save_reserved_key_overwrite :
    (∀ (h : Record) (t v : Rat),
      List.lookup "test_mrr" h = none → List.lookup "validation_mrr" h = none →
      List.lookup "hash" h = none →
      List.lookup "test_mrr" (Results.savedRecord h t v) = some (JsonVal.num t) ∧
      List.lookup "validation_mrr" (Results.savedRecord h t v) = some (JsonVal.num v) ∧
      List.lookup "hash" (Results.savedRecord h t v) =
        some (JsonVal.str (Results.hash h))) ∧
    (∀ (h : Record) (t v : Rat) (w : JsonVal),
      List.lookup "test_mrr" h = some w →
      List.lookup "test_mrr" (Results.savedRecord h t v) = some w) ∧
    (∀ (h : Record) (t v : Rat) (w : JsonVal),
      List.lookup "validation_mrr" h = some w →
      List.lookup "validation_mrr" (Results.savedRecord h t v) = some w) ∧
    (∀ (h : Record) (t v : Rat) (w : JsonVal),
      List.lookup "hash" h = some w →
      List.lookup "hash" (Results.savedRecord h t v) = some w) ∧
    (∀ (h : Record) (t v : Rat) (s : List Record),
      Results.save h t v s = s ++ [Results.savedRecord h t v]) := by
  refine ⟨fun h t v h1 h2 h3 => ?_, fun h t v w hw => ?_, fun h t v w hw => ?_,
    fun h t v w hw => ?_, fun _ _ _ _ => rfl⟩
  · rw [lookup_savedRecord_test_mrr, lookup_savedRecord_validation_mrr,
      lookup_savedRecord_hash, h1, h2, h3]
    exact ⟨rfl, rfl, rfl⟩
  · rw [lookup_savedRecord_test_mrr, hw]; rfl
  · rw [lookup_savedRecord_validation_mrr, hw]; rfl
  · rw [lookup_savedRecord_hash, hw]; rfl

/-- **C10 witness**: for `{"lr": 1}` with scores `5, 4` the record carries
`test_mrr = 5`, `validation_mrr = 4` and the fingerprint; for the reserved
key `{"test_mrr": 7}` the hyperparameter value overwrites the score
field. -/
theorem C10_save_reserved_key_overwrite_witness :
    (List.lookup "test_mrr" (Results.savedRecord [("lr", JsonVal.int 1)] 5 4) =
        some (JsonVal.num 5) ∧
      List.lookup "validation_mrr" (Results.savedRecord [("lr", JsonVal.int 1)] 5 4) =
        some (JsonVal.num 4) ∧
      List.lookup "hash" (Results.savedRecord [("lr", JsonVal.int 1)] 5 4) =
        some (JsonVal.str (Results.hash [("lr", JsonVal.int 1)]))) ∧
    List.lookup "test_mrr" (Results.savedRecord [("test_mrr", JsonVal.int 7)] 5 4) =
      some (JsonVal.int 7) := by
  constructor
  · exact C10_save_reserved_key_overwrite.1 [("lr", JsonVal.int 1)] 5 4 rfl rfl rfl
  · exact C10_save_reserved_key_overwrite.2.1 [("test_mrr", JsonVal.int 7)] 5 4
      (JsonVal.int 7) rfl

/-! ### Store lookup -/

theorem scanHash_cons (d : String) (datum : Record) (rest : List Record) :
    Results.scanHash d (datum :: rest) =
      match List.lookup "hash" datum with
      | none => none
      | some (JsonVal.str s) =>
        if s = d then some (Results.eraseHash datum) else Results.scanHash d rest
      | some _ => Results.scanHash d rest := rfl

/-- Records whose `hash` field is a string different from `d` are skipped by
the scan. -/
theorem scanHash_skip {d : String} :
    ∀ {s : List Record},
      (∀ r ∈ s, ∃ hs, List.lookup "hash" r = some (JsonVal.str hs) ∧ hs ≠ d) →
      ∀ t, Results.scanHash d (s ++ t) = Results.scanHash d t := by
  intro s
  induction s with
  | nil => intro _ t; rfl
  | cons datum s' ih =>
    intro hfresh t
    obtain ⟨hs, hlk, hne⟩ := hfresh datum (List.mem_cons_self _ _)
    show Results.scanHash d (datum :: (s' ++ t)) = _
    rw [scanHash_cons, hlk]
    show (if hs = d then some (Results.eraseHash datum)
      else Results.scanHash d (s' ++ t)) = _
    rw [if_neg hne]
    exact ih (fun r hr => hfresh r (List.mem_cons_of_mem _ hr)) t

/-- A matching scan stays a match under extension of the store on the
right. -/
theorem scanHash_append_some {d : String} :
    ∀ {s : List Record} {r : Record}, Results.scanHash d s = some r →
      ∀ t, Results.scanHash d (s ++ t) = some r := by
  intro s
  induction s with
  | nil => intro r hr; exact absurd hr (by simp [Results.scanHash])
  | cons datum s' ih =>
    intro r hr t
    rw [scanHash_cons] at hr
    show Results.scanHash d (datum :: (s' ++ t)) = some r
    rw [scanHash_cons]
    cases hlk : List.lookup "hash" datum with
    | none => rw [hlk] at hr; exact absurd hr (by simp)
    | some v =>
      rw [hlk] at hr
      cases v with
      | str sv =>
        have hr' : (if sv = d then some (Results.eraseHash datum)
            else Results.scanHash d s') = some r := hr
        by_cases hsd : sv = d
        · show (if sv = d then some (Results.eraseHash datum)
            else Results.scanHash d (s' ++ t)) = some r
          rw [if_pos hsd] at hr' ⊢; exact hr'
        · show (if sv = d then some (Results.eraseHash datum)
            else Results.scanHash d (s' ++ t)) = some r
          rw [if_neg hsd] at hr' ⊢; exact ih hr' t
      | int n => exact ih hr t
      | num q => exact ih hr t
      | bool b => exact ih hr t
      | arr l => exact ih hr t

/-- **C3 (amended)**: the store round-trip, for a hyperparameter set whose
fingerprint does not yet occur in the store and whose keys avoid the
reserved fields: after `save(h, t, v)`, membership is true and lookup
returns the two scores together with exactly `h`'s bindings, the `hash`
field stripped. -/
theorem C3_store_roundtrip (h : Record) (t v : Rat) (s : List Record)
    (hfresh : ∀ r ∈ s, ∃ hs, List.lookup "hash" r = some (JsonVal.str hs) ∧
      hs ≠ Results.hash h)
    (h1 : List.lookup "test_mrr" h = none)
    (h2 : List.lookup "validation_mrr" h = none)
    (h3 : List.lookup "hash" h = none) :
    Results.contains h (Results.save h t v s) = true ∧
    Results.getitem h (Results.save h t v s) =
      some ([("test_mrr", JsonVal.num t), ("validation_mrr", JsonVal.num v)] ++ h) := by
  have hget : Results.getitem h (Results.save h t v s) =
      some ([("test_mrr", JsonVal.num t), ("validation_mrr", JsonVal.num v)] ++ h) := by
    unfold Results.getitem Results.save
    rw [scanHash_skip hfresh]
    rw [savedRecord_of_disjoint h t v h1 h2 h3]
    rw [scanHash_cons]
    rw [show List.lookup "hash"
        ([("test_mrr", JsonVal.num t), ("validation_mrr", JsonVal.num v),
          ("hash", JsonVal.str (Results.hash h))] ++ h) =
        some (JsonVal.str (Results.hash h)) by simp [List.lookup]]
    show (if Results.hash h = Results.hash h then
        some (Results.eraseHash
          ([("test_mrr", JsonVal.num t), ("validation_mrr", JsonVal.num v),
            ("hash", JsonVal.str (Results.hash h))] ++ h))
      else Results.scanHash (Results.hash h) []) = _
    rw [if_pos rfl]
    unfold Results.eraseHash
    simp [List.eraseP_cons]
  exact ⟨by unfold Results.contains; rw [hget]; rfl, hget⟩

/-- **C3 counterexample**: the claim's universal round-trip fails.  (i) When
the store already holds a record with the same fingerprint, lookup after
`save({"lr": 1}, 5, 4)` returns the *old* scores (`test_mrr = 1`), not
`test_mrr = 5`.  (ii) When the hyperparameters bind the reserved key
`test_mrr` (here `{"test_mrr": 7}`), the returned record reports `7`, not
the score `5` that was saved. -/
theorem C3_store_roundtrip_counterexample :
    Results.getitem [("lr", JsonVal.int 1)]
        (Results.save [("lr", JsonVal.int 1)] 5 4
          (Results.save [("lr", JsonVal.int 1)] 1 2 [])) =
      some [("test_mrr", JsonVal.num 1), ("validation_mrr", JsonVal.num 2),
            ("lr", JsonVal.int 1)] ∧
    List.lookup "test_mrr"
        ((Results.getitem [("lr", JsonVal.int 1)]
          (Results.save [("lr", JsonVal.int 1)] 5 4
            (Results.save [("lr", JsonVal.int 1)] 1 2 []))).getD []) ≠
      some (JsonVal.num 5) ∧
    Results.getitem [("test_mrr", JsonVal.int 7)]
        (Results.save [("test_mrr", JsonVal.int 7)] 5 4 []) =
      some [("test_mrr", JsonVal.int 7), ("validation_mrr", JsonVal.num 4)] ∧
    List.lookup "test_mrr"
        ((Results.getitem [("test_mrr", JsonVal.int 7)]
          (Results.save [("test_mrr", JsonVal.int 7)] 5 4 [])).getD []) ≠
      some (JsonVal.num 5) := by
  refine ⟨rfl, ?_, rfl, ?_⟩
  · intro hc
    have h12 := (show List.lookup "test_mrr"
        ((Results.getitem [("lr", JsonVal.int 1)]
          (Results.save [("lr", JsonVal.int 1)] 5 4
            (Results.save [("lr", JsonVal.int 1)] 1 2 []))).getD []) =
        some (JsonVal.num 1) from rfl).symm.trans hc
    have h13 := Option.some.inj h12
    injection h13 with h14
    norm_num at h14
  · intro hc
    have h12 := (show List.lookup "test_mrr"
        ((Results.getitem [("test_mrr", JsonVal.int 7)]
          (Results.save [("test_mrr", JsonVal.int 7)] 5 4 [])).getD []) =
        some (JsonVal.int 7) from rfl).symm.trans hc
    have h13 := Option.some.inj h12
    injection h13

/-- **C3 witness**: the amended round-trip evaluated at `{"lr": 1}` with
scores `5, 4` on the empty store. -/
theorem C3_store_roundtrip_witness :
    Results.contains [("lr", JsonVal.int 1)]
        (Results.save [("lr", JsonVal.int 1)] 5 4 []) = true ∧
    Results.getitem [("lr", JsonVal.int 1)]
        (Results.save [("lr", JsonVal.int 1)] 5 4 []) =
      some [("test_mrr", JsonVal.num 5), ("validation_mrr", JsonVal.num 4),
            ("lr", JsonVal.int 1)] :=
  C3_store_roundtrip [("lr", JsonVal.int 1)] 5 4 []
    (fun r hr => absurd hr (by simp)) rfl rfl rfl

/-! ### `best()` returns the first maximum -/

theorem head_orderedInsert (a : Record) (s : List Record) :
    (List.orderedInsert Results.bestOrd a s).head? =
      some (match s.head? with
        | none => a
        | some y => if Results.testMrr y ≤ Results.testMrr a then a else y) := by
  cases s with
  | nil => rfl
  | cons y ys =>
    show (if Results.bestOrd a y then a :: y :: ys
      else y :: List.orderedInsert Results.bestOrd a ys).head? = _
    by_cases hb : Results.bestOrd a y
    · rw [if_pos hb]
      show some a = some (if Results.testMrr y ≤ Results.testMrr a then a else y)
      have hb' : Results.testMrr y ≤ Results.testMrr a := hb
      rw [if_pos hb']
    · rw [if_neg hb]
      show some y = some (if Results.testMrr y ≤ Results.testMrr a then a else y)
      have hb' : ¬ Results.testMrr y ≤ Results.testMrr a := hb
      rw [if_neg hb']

/-- Folding the spec's step from a seeded best computes the first maximum of
the seed and the list, with ties favouring the seed (which comes first). -/
theorem foldl_bestStep_some :
    ∀ (l : List Record) (a : Record),
      l.foldl Results.bestStep (some a) =
      some (match Results.specBest l with
        | none => a
        | some y => if Results.testMrr y ≤ Results.testMrr a then a else y) := by
  intro l
  induction l with
  | nil => intro a; rfl
  | cons x l ih =>
    intro a
    have hstep : ∀ b : Record, Results.bestStep (some b) x =
        some (if Results.testMrr b < Results.testMrr x then x else b) := by
      intro b
      show (if Results.testMrr b < Results.testMrr x then some x else some b) = _
      by_cases hb : Results.testMrr b < Results.testMrr x
      · rw [if_pos hb, if_pos hb]
      · rw [if_neg hb, if_neg hb]
    have hspecBest_cons : Results.specBest (x :: l) = l.foldl Results.bestStep (some x) := rfl
    show List.foldl Results.bestStep (Results.bestStep (some a) x) l = _
    rw [hstep a, ih, hspecBest_cons, ih x]
    cases hsp : Results.specBest l with
    | none =>
      show some (if Results.testMrr a < Results.testMrr x then x else a) =
        some (if Results.testMrr x ≤ Results.testMrr a then a else x)
      split_ifs with h2 h3 <;> first | rfl | (exfalso; linarith)
    | some y =>
      show some (if Results.testMrr y ≤
          Results.testMrr (if Results.testMrr a < Results.testMrr x then x else a)
        then (if Results.testMrr a < Results.testMrr x then x else a) else y) =
        some (if Results.testMrr (if Results.testMrr y ≤ Results.testMrr x then x else y) ≤
          Results.testMrr a
        then a else (if Results.testMrr y ≤ Results.testMrr x then x else y))
      split_ifs <;> first | rfl | (exfalso; linarith)

/-- The head of the stable descending sort is the spec's first maximum. -/
theorem head_insertionSort_eq_specBest :
    ∀ l : List Record,
      (List.insertionSort Results.bestOrd l).head? = Results.specBest l := by
  intro l
  induction l with
  | nil => rfl
  | cons a l ih =>
    show (List.orderedInsert Results.bestOrd a
      (List.insertionSort Results.bestOrd l)).head? = _
    rw [head_orderedInsert, ih]
    have hspecBest_cons : Results.specBest (a :: l) = l.foldl Results.bestStep (some a) := rfl
    rw [hspecBest_cons, foldl_bestStep_some]

/-- The spec's first maximum is a list element, maximal, and strictly above
everything before it. -/
theorem specBest_decomp :
    ∀ (l : List Record) (m : Record), Results.specBest l = some m →
      ∃ pre post, l = pre ++ m :: post ∧
        (∀ r ∈ pre, Results.testMrr r < Results.testMrr m) ∧
        (∀ r ∈ l, Results.testMrr r ≤ Results.testMrr m) := by
  intro l
  induction l with
  | nil => intro m hm; exact absurd hm (by simp [Results.specBest])
  | cons a l ih =>
    intro m hm
    have hcons : Results.specBest (a :: l) = l.foldl Results.bestStep (some a) := rfl
    rw [hcons, foldl_bestStep_some] at hm
    cases hsp : Results.specBest l with
    | none =>
      have hl : l = [] := by
        cases l with
        | nil => rfl
        | cons x l' =>
          rw [show Results.specBest (x :: l') = l'.foldl Results.bestStep (some x) from rfl,
            foldl_bestStep_some] at hsp
          exact absurd hsp (by simp)
      subst hl
      rw [hsp] at hm
      have hma : m = a := by
        have h' : (a : Record) = m := Option.some.inj hm
        exact h'.symm
      subst hma
      exact ⟨[], [], rfl, by simp, by simp⟩
    | some y =>
      rw [hsp] at hm
      have hm' : some (if Results.testMrr y ≤ Results.testMrr a then a else y) =
          some m := hm
      obtain ⟨pre', post', hdec, hpre, hall⟩ := ih y hsp
      by_cases h1 : Results.testMrr y ≤ Results.testMrr a
      · rw [if_pos h1] at hm'
        have hma : m = a := (Option.some.inj hm').symm
        subst hma
        refine ⟨[], l, rfl, by simp, ?_⟩
        intro r hr
        rcases List.mem_cons.mp hr with rfl | hr'
        · exact le_refl _
        · exact le_trans (hall r hr') h1
      · rw [if_neg h1] at hm'
        have hmy : m = y := (Option.some.inj hm').symm
        subst hmy
        refine ⟨a :: pre', post', by rw [hdec]; rfl, ?_, ?_⟩
        · intro r hr
          rcases List.mem_cons.mp hr with rfl | hr'
          · exact not_le.mp h1
          · exact hpre r hr'
        · intro r hr
          rcases List.mem_cons.mp hr with rfl | hr'
          · exact le_of_lt (not_le.mp h1)
          · exact hall r hr'

/-- **C4**: `best()` refines the spec's selection rule on stores whose
records carry a numeric `test_mrr`: it equals the first-occurrence maximum
over the hash-stripped records; on the empty store it returns the explicit
empty value `none`; and any returned record is an element that is maximal
in `test_mrr` and strictly above every record before it in file order. -/
theorem C4_best_first_maximum (s : List Record)
    (hwf : ∀ r ∈ s, ∃ q : Rat,
      List.lookup "test_mrr" (Results.eraseHash r) = some (JsonVal.num q)) :
    Results.best s = Results.specBest (s.map Results.eraseHash) ∧
    Results.best ([] : List Record) = none ∧
    (∀ m, Results.best s = some m →
      ∃ pre post, s.map Results.eraseHash = pre ++ m :: post ∧
        (∀ r ∈ pre, Results.testMrr r < Results.testMrr m) ∧
        (∀ r ∈ s.map Results.eraseHash, Results.testMrr r ≤ Results.testMrr m)) := by
  refine ⟨head_insertionSort_eq_specBest _, rfl, ?_⟩
  intro m hm
  rw [show Results.best s =
    (List.insertionSort Results.bestOrd (s.map Results.eraseHash)).head? from rfl,
    head_insertionSort_eq_specBest] at hm
  exact specBest_decomp _ m hm

/-- **C4 witness**: on a store holding `test_mrr` values `3, 9, 5`, `best()`
returns the record with `9`. -/
theorem C4_best_first_maximum_witness :
    Results.best
      (Results.save [("a", JsonVal.int 3)] 5 0
        (Results.save [("a", JsonVal.int 2)] 9 0
          (Results.save [("a", JsonVal.int 1)] 3 0 []))) =
      some [("test_mrr", JsonVal.num 9), ("validation_mrr", JsonVal.num 0),
            ("a", JsonVal.int 2)] := by
  have hwf : ∀ r ∈ (Results.save [("a", JsonVal.int 3)] 5 0
      (Results.save [("a", JsonVal.int 2)] 9 0
        (Results.save [("a", JsonVal.int 1)] 3 0 []))),
      ∃ q : Rat, List.lookup "test_mrr" (Results.eraseHash r) = some (JsonVal.num q) := by
    intro r hr
    simp only [Results.save, List.append_nil, List.nil_append, List.mem_append,
      List.mem_singleton] at hr
    rcases hr with (rfl | rfl) | rfl
    · exact ⟨3, rfl⟩
    · exact ⟨9, rfl⟩
    · exact ⟨5, rfl⟩
  have hb := (C4_best_first_maximum
      (Results.save [("a", JsonVal.int 3)] 5 0
        (Results.save [("a", JsonVal.int 2)] 9 0
          (Results.save [("a", JsonVal.int 1)] 3 0 []))) hwf).1
  rw [hb]
  rfl

/-! ### The samplers: length, reproducibility, and the derived dilation -/

theorem length_parameterSampler (space : Space) (n rs : Nat) :
    (parameterSampler space n rs).length = n := by
  simp [parameterSampler]

/-- **C5**: each family sampler yields exactly `count` hyperparameter sets,
and (the embedded random state being a pure function of the seed) two calls
with the same seed and space yield identical sequences. -/
theorem C5_sampler_length_reproducible :
    (∀ rs num, (sample_cnn_hyperparameters rs num).length = num) ∧
    (∀ rs num, (sample_lstm_hyperparameters rs num).length = num) ∧
    (∀ rs num, (sample_pooling_hyperparameters rs num).length = num) ∧
    (∀ rs num,
      sample_cnn_hyperparameters rs num = sample_cnn_hyperparameters rs num ∧
      sample_lstm_hyperparameters rs num = sample_lstm_hyperparameters rs num ∧
      sample_pooling_hyperparameters rs num = sample_pooling_hyperparameters rs num) := by
  refine ⟨fun rs num => ?_, fun rs num => length_parameterSampler _ _ _,
    fun rs num => length_parameterSampler _ _ _, fun _ _ => ⟨rfl, rfl, rfl⟩⟩
  unfold sample_cnn_hyperparameters
  rw [List.length_map]
  exact length_parameterSampler _ _ _

/-- The one draw of `ParameterSampler` over the CNN space, written out:
the eleven parameters in sorted key order, each picked from its candidate
list by the random stream. -/
theorem parameterSampler_cnn_eq (rs num : Nat) :
    parameterSampler cnnSpace num rs =
      (List.range num).map (fun j =>
        [("batch_size", batchSizeList.getD (rnd rs j 0 % 1) (JsonVal.int 0)),
         ("dilation_multiplier",
           [JsonVal.int 1, JsonVal.int 2].getD (rnd rs j 1 % 2) (JsonVal.int 0)),
         ("embedding_dim", embeddingDimList.getD (rnd rs j 2 % 1) (JsonVal.int 0)),
         ("kernel_width",
           [JsonVal.int 3, JsonVal.int 5, JsonVal.int 7].getD (rnd rs j 3 % 3) (JsonVal.int 0)),
         ("l2", l2List.getD (rnd rs j 4 % 6) (JsonVal.int 0)),
         ("learning_rate", learningRatesList.getD (rnd rs j 5 % 4) (JsonVal.int 0)),
         ("loss", lossesList.getD (rnd rs j 6 % 4) (JsonVal.int 0)),
         ("n_iter", nIterList.getD (rnd rs j 7 % 15) (JsonVal.int 0)),
         ("nonlinearity",
           [JsonVal.str "tanh", JsonVal.str "relu"].getD (rnd rs j 8 % 2) (JsonVal.int 0)),
         ("num_layers",
           ((List.range 9).map (fun k : Nat => JsonVal.int (1 + (k : Int)))).getD
             (rnd rs j 9 % 9) (JsonVal.int 0)),
         ("residual",
           [JsonVal.bool true, JsonVal.bool false].getD (rnd rs j 10 % 2) (JsonVal.int 0))]) :=
  rfl

theorem getD_range_map {n : Nat} (g : Nat → JsonVal) {m : Nat} (hm : m < n)
    (d : JsonVal) : ((List.range n).map g).getD m d = g m := by
  rw [List.getD_eq_getElem?_getD]
  simp [List.getElem?_map, List.getElem?_range hm]

/-- **C6**: every hyperparameter set produced by the CNN sampler carries a
`dilation` sequence of length `num_layers` whose `i`-th element is
`dilation_multiplier ^ (i % 8)`; and the derivation at
`dilation_multiplier = 2, num_layers = 10` is the spec's period-8 sequence
`[1, 2, 4, 8, 16, 32, 64, 128, 1, 2]`. -/
theorem C6_cnn_dilation_derivation :
    (∀ (rs num : Nat) (p : Record), p ∈ sample_cnn_hyperparameters rs num →
      ∃ (nl : Nat) (dm : Int),
        List.lookup "num_layers" p = some (JsonVal.int nl) ∧
        List.lookup "dilation_multiplier" p = some (JsonVal.int dm) ∧
        List.lookup "dilation" p = some (JsonVal.arr (cnnDilation dm nl)) ∧
        (cnnDilation dm nl).length = nl ∧
        (∀ i, i < nl → (cnnDilation dm nl).getD i (JsonVal.int 0) =
          JsonVal.int (dm ^ (i % 8)))) ∧
    cnnDilation 2 10 =
      [JsonVal.int 1, JsonVal.int 2, JsonVal.int 4, JsonVal.int 8, JsonVal.int 16,
       JsonVal.int 32, JsonVal.int 64, JsonVal.int 128, JsonVal.int 1, JsonVal.int 2] := by
  refine ⟨?_, rfl⟩
  intro rs num p hp
  unfold sample_cnn_hyperparameters at hp
  rw [parameterSampler_cnn_eq, List.map_map] at hp
  obtain ⟨j, hj, rfl⟩ := List.mem_map.mp hp
  simp only [Function.comp_apply]
  have hr9 : rnd rs j 9 % 9 < 9 := Nat.mod_lt _ (by norm_num)
  have h2 : rnd rs j 1 % 2 < 2 := Nat.mod_lt _ (by norm_num)
  have hnum : ((List.range 9).map (fun k : Nat => JsonVal.int (1 + (k : Int)))).getD
      (rnd rs j 9 % 9) (JsonVal.int 0) =
      JsonVal.int (1 + (↑(rnd rs j 9 % 9) : Int)) := getD_range_map _ hr9 _
  have hdm : [JsonVal.int 1, JsonVal.int 2].getD (rnd rs j 1 % 2) (JsonVal.int 0) =
      JsonVal.int (if rnd rs j 1 % 2 = 0 then 1 else 2) := by
    have h2' : rnd rs j 1 % 2 = 0 ∨ rnd rs j 1 % 2 = 1 := by omega
    rcases h2' with h1 | h1 <;> rw [h1] <;> simp
  have hcast : ((1 + rnd rs j 9 % 9 : Nat) : Int) = 1 + (↑(rnd rs j 9 % 9) : Int) := by
    omega
  have htoNat : ((1 : Int) + (↑(rnd rs j 9 % 9) : Int)).toNat = 1 + rnd rs j 9 % 9 := by
    omega
  rw [hnum, hdm]
  refine ⟨1 + rnd rs j 9 % 9, (if rnd rs j 1 % 2 = 0 then 1 else 2),
    ?_, ?_, ?_, by simp [cnnDilation], ?_⟩
  · simp [List.lookup, hcast]
  · simp [List.lookup]
  · simp [List.lookup, dilationMultiplierOf, numLayersOf, htoNat]
    congr 1
  · intro i hi
    exact getD_range_map _ (by omega) _

/-- **C6 witness**: the dilation property applied to the concrete set
sampled from seed 0 (`dilation_multiplier = 1`, `num_layers = 8`). -/
theorem C6_cnn_dilation_derivation_witness :
    ∃ (nl : Nat) (dm : Int),
      List.lookup "num_layers"
          [("batch_size", JsonVal.int 256), ("dilation_multiplier", JsonVal.int 1),
           ("embedding_dim", JsonVal.int 8), ("kernel_width", JsonVal.int 3),
           ("l2", JsonVal.num (1/1000)), ("learning_rate", JsonVal.num (1/1000)),
           ("loss", JsonVal.str "hinge"), ("n_iter", JsonVal.int 13),
           ("nonlinearity", JsonVal.str "relu"), ("num_layers", JsonVal.int 8),
           ("residual", JsonVal.bool false),
           ("dilation", JsonVal.arr [JsonVal.int 1, JsonVal.int 1, JsonVal.int 1,
             JsonVal.int 1, JsonVal.int 1, JsonVal.int 1, JsonVal.int 1, JsonVal.int 1])] =
        some (JsonVal.int nl) ∧
      List.lookup "dilation_multiplier"
          [("batch_size", JsonVal.int 256), ("dilation_multiplier", JsonVal.int 1),
           ("embedding_dim", JsonVal.int 8), ("kernel_width", JsonVal.int 3),
           ("l2", JsonVal.num (1/1000)), ("learning_rate", JsonVal.num (1/1000)),
           ("loss", JsonVal.str "hinge"), ("n_iter", JsonVal.int 13),
           ("nonlinearity", JsonVal.str "relu"), ("num_layers", JsonVal.int 8),
           ("residual", JsonVal.bool false),
           ("dilation", JsonVal.arr [JsonVal.int 1, JsonVal.int 1, JsonVal.int 1,
             JsonVal.int 1, JsonVal.int 1, JsonVal.int 1, JsonVal.int 1, JsonVal.int 1])] =
        some (JsonVal.int dm) ∧
      List.lookup "dilation"
          [("batch_size", JsonVal.int 256), ("dilation_multiplier", JsonVal.int 1),
           ("embedding_dim", JsonVal.int 8), ("kernel_width", JsonVal.int 3),
           ("l2", JsonVal.num (1/1000)), ("learning_rate", JsonVal.num (1/1000)),
           ("loss", JsonVal.str "hinge"), ("n_iter", JsonVal.int 13),
           ("nonlinearity", JsonVal.str "relu"), ("num_layers", JsonVal.int 8),
           ("residual", JsonVal.bool false),
           ("dilation", JsonVal.arr [JsonVal.int 1, JsonVal.int 1, JsonVal.int 1,
             JsonVal.int 1, JsonVal.int 1, JsonVal.int 1, JsonVal.int 1, JsonVal.int 1])] =
        some (JsonVal.arr (cnnDilation dm nl)) ∧
      (cnnDilation dm nl).length = nl ∧
      (∀ i, i < nl → (cnnDilation dm nl).getD i (JsonVal.int 0) =
        JsonVal.int (dm ^ (i % 8))) := by
  apply C6_cnn_dilation_derivation.1 0 1
  have he : sample_cnn_hyperparameters 0 1 =
      [[("batch_size", JsonVal.int 256), ("dilation_multiplier", JsonVal.int 1),
        ("embedding_dim", JsonVal.int 8), ("kernel_width", JsonVal.int 3),
        ("l2", JsonVal.num (1/1000)), ("learning_rate", JsonVal.num (1/1000)),
        ("loss", JsonVal.str "hinge"), ("n_iter", JsonVal.int 13),
        ("nonlinearity", JsonVal.str "relu"), ("num_layers", JsonVal.int 8),
        ("residual", JsonVal.bool false),
        ("dilation", JsonVal.arr [JsonVal.int 1, JsonVal.int 1, JsonVal.int 1,
          JsonVal.int 1, JsonVal.int 1, JsonVal.int 1, JsonVal.int 1, JsonVal.int 1])]] :=
    rfl
  rw [he]
  exact List.mem_singleton_self _

/-! ### The driver: dispatch errors and the misspelled random state -/

/-- **C8**: for a model type other than `pooling`, `cnn` and `lstm` the
driver raises `ValueError` before anything else: no hyperparameter set is
drawn and no evaluation is invoked, for every store, telemetry setting and
evaluator. -/
theorem C8_unknown_model_type_fails_fast (g : Option Nat) (rs : Nat) (mt : String)
    (tb : Option String) (ev : Nat → Record → String → Rat × Rat) (s : List Record)
    (h1 : mt ≠ "pooling") (h2 : mt ≠ "cnn") (h3 : mt ≠ "lstm") :
    run g rs mt tb ev s = ⟨Except.error PyErr.valueError, [], []⟩ := by
  simp only [run]
  rw [if_neg (by simp [h1, h2, h3])]

/-- **C8 witness**: the failure at the concrete unknown mode
`"transformer"`. -/
theorem C8_unknown_model_type_fails_fast_witness :
    run (some 0) 0 "transformer" none (fun _ _ _ => (0, 0)) [] =
      ⟨Except.error PyErr.valueError, [], []⟩ :=
  C8_unknown_model_type_fails_fast (some 0) 0 "transformer" none _ []
    (by decide) (by decide) (by decide)

/-- **C9**: the declared parameter `ranomd_state` is never read — `run` is
literally constant in it — because the body reads the distinct name
`random_state`, resolved against the module globals; when no such global is
defined, `run` on any known model type raises `NameError` (after the
model-type dispatch, which raises `ValueError` first for unknown types). -/
theorem C9_ranomd_state_never_read :
    (∀ (g : Option Nat) (a b : Nat) (mt : String) (tb : Option String)
        (ev : Nat → Record → String → Rat × Rat) (s : List Record),
      run g a mt tb ev s = run g b mt tb ev s) ∧
    (∀ (a : Nat) (mt : String) (tb : Option String)
        (ev : Nat → Record → String → Rat × Rat) (s : List Record),
      (mt = "pooling" ∨ mt = "cnn" ∨ mt = "lstm") →
      run none a mt tb ev s = ⟨Except.error PyErr.nameError, [], []⟩) := by
  constructor
  · intro g a b mt tb ev s
    rfl
  · intro a mt tb ev s hmt
    simp only [run]
    rw [if_pos hmt]

/-- **C9 witness**: two different `ranomd_state` arguments give the same
outcome, and with no global `random_state` the `cnn` run raises
`NameError`. -/
theorem C9_ranomd_state_never_read_witness :
    run (some 5) 1 "cnn" none (fun _ _ _ => (0, 0)) [] =
      run (some 5) 2 "cnn" none (fun _ _ _ => (0, 0)) [] ∧
    run none 3 "cnn" none (fun _ _ _ => (0, 0)) [] =
      ⟨Except.error PyErr.nameError, [], []⟩ :=
  ⟨C9_ranomd_state_never_read.1 (some 5) 1 2 "cnn" none _ [],
   C9_ranomd_state_never_read.2 3 "cnn" none _ [] (Or.inr (Or.inl rfl))⟩

/-- **C7**: contrary to the spec, leaving `tb_log_dir` at its default
`None` does *not* let the per-candidate loop run to completion: the first
fresh candidate reaches `os.path.join(None, model_type, ...)`, which raises
`TypeError` before any evaluation — here on an `lstm` run over the empty
store. -/
theorem C7_tb_log_dir_none_type_error :
    (run (some 0) 0 "lstm" none (fun _ _ _ => (0, 0)) []).result =
      Except.error PyErr.typeError ∧
    (run (some 0) 0 "lstm" none (fun _ _ _ => (0, 0)) []).evaluated = [] :=
  ⟨rfl, rfl⟩

/-! ### The per-candidate loop: skip and resume -/

theorem contains_append_of_contains {h : Record} {s : List Record}
    (hc : Results.contains h s = true) (t : List Record) :
    Results.contains h (s ++ t) = true := by
  unfold Results.contains Results.getitem at hc ⊢
  obtain ⟨r, hr⟩ := Option.isSome_iff_exists.mp hc
  rw [scanHash_append_some hr t]
  rfl

/-- Saving `h` (with no `hash` key of its own) into a store whose records
all carry a `hash` field makes `h` contained. -/
theorem contains_save_self {h : Record} (hnh : List.lookup "hash" h = none)
    (t v : Rat) :
    ∀ {s : List Record}, (∀ r ∈ s, (List.lookup "hash" r).isSome) →
      Results.contains h (Results.save h t v s) = true := by
  have hrec : List.lookup "hash" (Results.savedRecord h t v) =
      some (JsonVal.str (Results.hash h)) := by
    rw [lookup_savedRecord_hash, hnh]
    rfl
  intro s
  induction s with
  | nil =>
    intro _
    unfold Results.contains Results.getitem Results.save
    rw [List.nil_append, scanHash_cons, hrec]
    show (if Results.hash h = Results.hash h then
        some (Results.eraseHash (Results.savedRecord h t v))
      else Results.scanHash (Results.hash h) []).isSome = true
    rw [if_pos rfl]
    rfl
  | cons datum s' ih =>
    intro hwf
    have hds : Results.save h t v (datum :: s') =
        datum :: Results.save h t v s' := rfl
    unfold Results.contains Results.getitem
    rw [hds, scanHash_cons]
    obtain ⟨vd, hvd⟩ := Option.isSome_iff_exists.mp
      (hwf datum (List.mem_cons_self _ _))
    rw [hvd]
    have ih' := ih (fun r hr => hwf r (List.mem_cons_of_mem _ hr))
    unfold Results.contains Results.getitem at ih'
    cases vd with
    | str sv =>
      show (if sv = Results.hash h then some (Results.eraseHash datum)
        else Results.scanHash (Results.hash h) (Results.save h t v s')).isSome = true
      by_cases hsd : sv = Results.hash h
      · rw [if_pos hsd]
        rfl
      · rw [if_neg hsd]
        exact ih'
    | int n => exact ih'
    | num q => exact ih'
    | bool b => exact ih'
    | arr l => exact ih'

theorem save_preserves_wf {s : List Record}
    (hwf : ∀ r ∈ s, (List.lookup "hash" r).isSome) (h : Record) (t v : Rat) :
    ∀ r ∈ Results.save h t v s, (List.lookup "hash" r).isSome := by
  intro r hr
  rcases List.mem_append.mp hr with hr' | hr'
  · exact hwf r hr'
  · rw [List.mem_singleton.mp hr', lookup_savedRecord_hash]
    rfl

theorem runLoop_nil (tb : Option String) (mt : String)
    (ev : Record → String → Rat × Rat) (store : List Record) (cnt : Nat) :
    runLoop tb mt ev store cnt [] = ⟨Except.ok store, [], []⟩ := rfl

theorem runLoop_cons (tb : Option String) (mt : String)
    (ev : Record → String → Rat × Rat) (store : List Record) (cnt : Nat)
    (h : Record) (rest : List Record) :
    runLoop tb mt ev store cnt (h :: rest) =
      if Results.contains h store then
        ⟨(runLoop tb mt ev store (cnt + 1) rest).result,
         h :: (runLoop tb mt ev store (cnt + 1) rest).sampled,
         (runLoop tb mt ev store (cnt + 1) rest).evaluated⟩
      else
        match osPathJoin tb mt (runDirName cnt) with
        | Except.error e => ⟨Except.error e, [h], []⟩
        | Except.ok dir =>
          ⟨(runLoop tb mt ev (Results.save h (ev h dir).1 (ev h dir).2 store)
              (cnt + 1) rest).result,
           h :: (runLoop tb mt ev (Results.save h (ev h dir).1 (ev h dir).2 store)
              (cnt + 1) rest).sampled,
           h :: (runLoop tb mt ev (Results.save h (ev h dir).1 (ev h dir).2 store)
              (cnt + 1) rest).evaluated⟩ := rfl

theorem runLoop_store_extends (tb : Option String) (mt : String)
    (ev : Record → String → Rat × Rat) :
    ∀ (cands : List Record) (s : List Record) (cnt : Nat) (s₁ : List Record)
      (sampled evs : List Record),
      runLoop tb mt ev s cnt cands = ⟨Except.ok s₁, sampled, evs⟩ →
      ∃ ext, s₁ = s ++ ext := by
  intro cands
  induction cands with
  | nil =>
    intro s cnt s₁ sampled evs heq
    rw [runLoop_nil] at heq
    have := congrArg RunOutcome.result heq
    exact ⟨[], by simpa using (Except.ok.inj this).symm⟩
  | cons h rest ih =>
    intro s cnt s₁ sampled evs heq
    rw [runLoop_cons] at heq
    by_cases hc : Results.contains h s
    · rw [if_pos hc] at heq
      have hres := congrArg RunOutcome.result heq
      rcases hout : runLoop tb mt ev s (cnt + 1) rest with ⟨res, sp, evd⟩
      rw [hout] at hres
      have hres' : res = Except.ok s₁ := hres
      exact ih s (cnt + 1) s₁ sp evd (by rw [hout, hres'])
    · rw [if_neg hc] at heq
      cases hj : osPathJoin tb mt (runDirName cnt) with
      | error e =>
        rw [hj] at heq
        have heq' : (⟨Except.error e, [h], []⟩ : RunOutcome) =
            ⟨Except.ok s₁, sampled, evs⟩ := heq
        exact absurd (congrArg RunOutcome.result heq') (by simp)
      | ok dir =>
        rw [hj] at heq
        have heq' :
            (⟨(runLoop tb mt ev (Results.save h (ev h dir).1 (ev h dir).2 s)
                (cnt + 1) rest).result,
              h :: (runLoop tb mt ev (Results.save h (ev h dir).1 (ev h dir).2 s)
                (cnt + 1) rest).sampled,
              h :: (runLoop tb mt ev (Results.save h (ev h dir).1 (ev h dir).2 s)
                (cnt + 1) rest).evaluated⟩ : RunOutcome) =
            ⟨Except.ok s₁, sampled, evs⟩ := heq
        have hres := congrArg RunOutcome.result heq'
        rcases hout : runLoop tb mt ev (Results.save h (ev h dir).1 (ev h dir).2 s)
            (cnt + 1) rest with ⟨res, sp, evd⟩
        rw [hout] at hres
        have hres' : res = Except.ok s₁ := hres
        obtain ⟨ext, hext⟩ := ih _ (cnt + 1) s₁ sp evd (by rw [hout, hres'])
        exact ⟨[Results.savedRecord h (ev h dir).1 (ev h dir).2] ++ ext,
          by rw [hext]; simp [Results.save]⟩

/-- When every candidate is already in the store, the loop performs no
evaluation and no write: it returns the store unchanged, having drawn every
candidate. -/
theorem runLoop_all_present (tb : Option String) (mt : String)
    (ev : Record → String → Rat × Rat) :
    ∀ (cands : List Record) (s : List Record) (cnt : Nat),
      (∀ h ∈ cands, Results.contains h s = true) →
      runLoop tb mt ev s cnt cands = ⟨Except.ok s, cands, []⟩ := by
  intro cands
  induction cands with
  | nil => intro s cnt _; exact runLoop_nil tb mt ev s cnt
  | cons h rest ih =>
    intro s cnt hall
    rw [runLoop_cons, if_pos (hall h (List.mem_cons_self _ _)),
      ih s (cnt + 1) (fun h' hh' => hall h' (List.mem_cons_of_mem _ hh'))]

/-- After a successful pass of the loop over candidates that carry no
`hash` key of their own, starting from a store whose records all have a
`hash` field, every candidate is contained in the final store (either it
was skipped because it was already there, or it was saved), and the final
store is again well-formed. -/
theorem runLoop_all_contained (tb : Option String) (mt : String)
    (ev : Record → String → Rat × Rat) :
    ∀ (cands : List Record) (s : List Record) (cnt : Nat) (s₁ : List Record)
      (sampled evs : List Record),
      (∀ h ∈ cands, List.lookup "hash" h = none) →
      (∀ r ∈ s, (List.lookup "hash" r).isSome) →
      runLoop tb mt ev s cnt cands = ⟨Except.ok s₁, sampled, evs⟩ →
      (∀ h ∈ cands, Results.contains h s₁ = true) ∧
      (∀ r ∈ s₁, (List.lookup "hash" r).isSome) := by
  intro cands
  induction cands with
  | nil =>
    intro s cnt s₁ sampled evs _ hwf heq
    rw [runLoop_nil] at heq
    have hs : s = s₁ := by
      have := congrArg RunOutcome.result heq
      simpa using this
    subst hs
    exact ⟨by simp, hwf⟩
  | cons h rest ih =>
    intro s cnt s₁ sampled evs hnh hwf heq
    rw [runLoop_cons] at heq
    by_cases hc : Results.contains h s
    · rw [if_pos hc] at heq
      rcases hout : runLoop tb mt ev s (cnt + 1) rest with ⟨res, sp, evd⟩
      rw [hout] at heq
      have hres : res = Except.ok s₁ := congrArg RunOutcome.result heq
      subst hres
      obtain ⟨hrest, hwf₁⟩ := ih s (cnt + 1) s₁ sp evd
        (fun h' hh' => hnh h' (List.mem_cons_of_mem _ hh')) hwf hout
      refine ⟨?_, hwf₁⟩
      intro h' hh'
      rcases List.mem_cons.mp hh' with rfl | hh''
      · obtain ⟨ext, hext⟩ := runLoop_store_extends tb mt ev rest s (cnt + 1)
          s₁ sp evd hout
        rw [hext]
        exact contains_append_of_contains hc ext
      · exact hrest h' hh''
    · rw [if_neg hc] at heq
      cases hj : osPathJoin tb mt (runDirName cnt) with
      | error e =>
        rw [hj] at heq
        have heq' : (⟨Except.error e, [h], []⟩ : RunOutcome) =
            ⟨Except.ok s₁, sampled, evs⟩ := heq
        exact absurd (congrArg RunOutcome.result heq') (by simp)
      | ok dir =>
        rw [hj] at heq
        have heq' :
            (⟨(runLoop tb mt ev (Results.save h (ev h dir).1 (ev h dir).2 s)
                (cnt + 1) rest).result,
              h :: (runLoop tb mt ev (Results.save h (ev h dir).1 (ev h dir).2 s)
                (cnt + 1) rest).sampled,
              h :: (runLoop tb mt ev (Results.save h (ev h dir).1 (ev h dir).2 s)
                (cnt + 1) rest).evaluated⟩ : RunOutcome) =
            ⟨Except.ok s₁, sampled, evs⟩ := heq
        rcases hout : runLoop tb mt ev (Results.save h (ev h dir).1 (ev h dir).2 s)
            (cnt + 1) rest with ⟨res, sp, evd⟩
        rw [hout] at heq'
        have hres : res = Except.ok s₁ := congrArg RunOutcome.result heq'
        subst hres
        have hwfs := save_preserves_wf hwf h (ev h dir).1 (ev h dir).2
        obtain ⟨hrest, hwf₁⟩ := ih _ (cnt + 1) s₁ sp evd
          (fun h' hh' => hnh h' (List.mem_cons_of_mem _ hh')) hwfs hout
        refine ⟨?_, hwf₁⟩
        intro h' hh'
        rcases List.mem_cons.mp hh' with rfl | hh''
        · obtain ⟨ext, hext⟩ := runLoop_store_extends tb mt ev rest _ (cnt + 1)
            s₁ sp evd hout
          rw [hext]
          exact contains_append_of_contains
            (contains_save_self (hnh h' (List.mem_cons_self _ _)) _ _ hwf) ext
        · exact hrest h' hh''

/-- **C1**: (i) a candidate whose fingerprint is already in the store is
skipped — the loop hands the *unchanged* store to the rest of the
candidates and does not evaluate it; (ii) when every candidate is already
present, the loop returns the store unchanged with no evaluations; and
(iii) after any successful pass, immediately re-running the loop over the
same sampled sequence evaluates nothing and appends zero new records.
Candidates are sampled hyperparameter sets, which never bind the reserved
key `hash`; the store's records, all written by `save`, always carry one. -/
theorem C1_skip_present_and_resume_appends_nothing :
    (∀ tb mt ev (s : List Record) (cnt : Nat) (h : Record) (rest : List Record),
      Results.contains h s = true →
      runLoop tb mt ev s cnt (h :: rest) =
        ⟨(runLoop tb mt ev s (cnt + 1) rest).result,
         h :: (runLoop tb mt ev s (cnt + 1) rest).sampled,
         (runLoop tb mt ev s (cnt + 1) rest).evaluated⟩) ∧
    (∀ tb mt ev (s : List Record) (cands : List Record) (cnt : Nat),
      (∀ h ∈ cands, Results.contains h s = true) →
      runLoop tb mt ev s cnt cands = ⟨Except.ok s, cands, []⟩) ∧
    (∀ tb mt ev (s : List Record) (cands : List Record) (cnt : Nat)
        (s₁ sampled evs : List Record),
      (∀ h ∈ cands, List.lookup "hash" h = none) →
      (∀ r ∈ s, (List.lookup "hash" r).isSome) →
      runLoop tb mt ev s cnt cands = ⟨Except.ok s₁, sampled, evs⟩ →
      runLoop tb mt ev s₁ cnt cands = ⟨Except.ok s₁, cands, []⟩) := by
  refine ⟨fun tb mt ev s cnt h rest hc => ?_,
    fun tb mt ev s cands cnt hall => runLoop_all_present tb mt ev cands s cnt hall,
    fun tb mt ev s cands cnt s₁ sampled evs hnh hwf heq => ?_⟩
  · rw [runLoop_cons, if_pos hc]
  · exact runLoop_all_present tb mt ev cands s₁ cnt
      (runLoop_all_contained tb mt ev cands s cnt s₁ sampled evs hnh hwf heq).1

/-- **C1 witness**: over the single candidate `{"a": 1}`: skipping on a
store that already holds it, and a full run from the empty store followed
by an immediately-re-run loop that appends nothing. -/
theorem C1_skip_present_and_resume_appends_nothing_witness :
    runLoop none "cnn" (fun _ _ => (1, 2)) (Results.save [("a", JsonVal.int 1)] 1 2 [])
        0 [[("a", JsonVal.int 1)]] =
      ⟨Except.ok (Results.save [("a", JsonVal.int 1)] 1 2 []),
       [[("a", JsonVal.int 1)]], []⟩ ∧
    runLoop (some "logs") "cnn" (fun _ _ => (1, 2))
        (Results.save [("a", JsonVal.int 1)] 1 2 []) 0 [[("a", JsonVal.int 1)]] =
      ⟨Except.ok (Results.save [("a", JsonVal.int 1)] 1 2 []),
       [[("a", JsonVal.int 1)]], []⟩ := by
  have hcont : ∀ h ∈ [[("a", JsonVal.int 1)]],
      Results.contains h (Results.save [("a", JsonVal.int 1)] 1 2 []) = true := by
    intro h hm
    rw [List.mem_singleton.mp hm]
    rfl
  refine ⟨C1_skip_present_and_resume_appends_nothing.2.1 none "cnn" _ _ _ 0 hcont,
    C1_skip_present_and_resume_appends_nothing.2.2 (some "logs") "cnn" _ [] _ 0
      (Results.save [("a", JsonVal.int 1)] 1 2 []) [[("a", JsonVal.int 1)]]
      [[("a", JsonVal.int 1)]] ?_ ?_ ?_⟩
  · intro h hm
    rw [List.mem_singleton.mp hm]
    rfl
  · intro r hr
    exact absurd hr (by simp)
  · rfl

end Movielens
